import Mathlib

/-!
Verification of the parameter-binding and query-rewriting engine of the
`OracleDatabase` n8n node (`src/nodes/Oracle/OracleDatabase.node.ts`).

The `execute` method of the node is embedded shallowly:
* the bind-building `reduce` over the parameter list (lines 193-238) becomes
  `compile` / `processParam` / `expandLoop`;
* JavaScript string operations used by the source (`String.prototype.replaceAll`
  with a string pattern, `String.prototype.split`, `slice(0, -1)`) are modelled
  over `List Char`;
* `crypto.randomUUID()` (one fresh suffix per generated bind) is modelled by a
  stream `sfx : Nat → String` of suffixes consumed in call order;
* the `FETCH FIRST` clause append (lines 240-245) becomes `applyLimit`;
* the result projection (lines 256-267) becomes `projectResult`;
* the try/catch/finally control flow (lines 170-283) becomes `executeNode`,
  which also reports how many times `connection.close()` was invoked and which
  messages were logged by the close handler.
-/

namespace OracleNode

/-- Oracle bind type tags: `oracledb.NUMBER` / `oracledb.STRING`
(line 197 of the source). -/
inductive OraType where
  | NUMBER
  | STRING
  deriving Repr, DecidableEq

/-- Result of JavaScript numeric coercion `Number(v)` of a string.
Modelled fragment of the JS semantics: surrounding whitespace is ignored, the
empty / all-whitespace string coerces to `0`, an optional-sign decimal integer
literal coerces to its value, and every other string (in particular every
non-numeric string, the case the claims exercise) coerces to `NaN`.
Fractional, exponent and hexadecimal literals are outside the modelled
fragment. -/
inductive JSNum where
  | nan
  | int (n : Int)
  deriving Repr, DecidableEq

/-- The value slot of a bind entry: the source stores either
`Number(param.value)` or `String(param.value)` (lines 203-206, 222-225). -/
inductive BindVal where
  | num (x : JSNum)
  | str (s : String)
  deriving Repr, DecidableEq

/-- One entry of the bind object: `{ type: ..., val: ... }` (lines 201-207). -/
structure BindParameter where
  type : OraType
  val : BindVal
  deriving Repr, DecidableEq

/-- The bind object `Record<string, oracledb.BindParameter>` (line 193),
modelled as an association list in insertion order. -/
abbrev BindMap := List (String × BindParameter)

/-- One element of the node's `parameterList` (lines 175-181). The raw value
arrives as text (the spec's data model: "value: scalar, represented as text
originally"); `String(v)` on it is the identity and `v.toString()` likewise. -/
structure Param where
  name : String
  value : String
  datatype : String
  parseInStatement : Bool
  deriving Repr, DecidableEq

/-- JS whitespace characters recognised by the modelled `Number` coercion. -/
def isJsSpace (c : Char) : Bool :=
  c = ' ' || c = '\t' || c = '\n' || c = '\r'

/-- Strip leading and trailing whitespace (JS `Number` ignores it). -/
def trimChars (s : List Char) : List Char :=
  ((s.dropWhile isJsSpace).reverse.dropWhile isJsSpace).reverse

/-- Decimal digit value of a character, if it is a digit. -/
def digitVal (c : Char) : Option Nat :=
  if '0' ≤ c ∧ c ≤ '9' then some (c.toNat - '0'.toNat) else none

/-- Accumulate a decimal number over a digit string; fails on a non-digit. -/
def parseDigitsAux (acc : Nat) : List Char → Option Nat
  | [] => some acc
  | c :: cs =>
    match digitVal c with
    | some d => parseDigitsAux (acc * 10 + d) cs
    | none => none

/-- Parse a nonempty optional-sign decimal integer literal. -/
def parseDecimal : List Char → Option Int
  | [] => none
  | '-' :: cs =>
    match cs with
    | [] => none
    | _ :: _ => (parseDigitsAux 0 cs).map (fun n => -(n : Int))
  | '+' :: cs =>
    match cs with
    | [] => none
    | _ :: _ => (parseDigitsAux 0 cs).map (fun n => (n : Int))
  | c :: cs => (parseDigitsAux 0 (c :: cs)).map (fun n => (n : Int))

/-- Model of JavaScript `Number(s)` on the fragment described at `JSNum`:
`Number("") = 0`, whitespace is trimmed, integer literals parse, everything
else is `NaN`. -/
def jsNumber (s : String) : JSNum :=
  let t := trimChars s.data
  if t = [] then .int 0
  else
    match parseDecimal t with
    | some n => .int n
    | none => .nan

/-- Model of JavaScript `s.split(sep)` for a single-character separator
(the source splits on `","`, line 213): `"".split(",") = [""]`,
`"a,".split(",") = ["a", ""]`. Always returns a nonempty list. -/
def jsSplitChars (sep : Char) : List Char → List (List Char)
  | [] => [[]]
  | c :: cs =>
    match jsSplitChars sep cs with
    | [] => []
    | h :: t => if c = sep then [] :: h :: t else (c :: h) :: t

/-- Line 213: `param.value.toString().split(",")`. -/
def jsSplit (s : String) : List String :=
  (jsSplitChars ',' s.data).map String.mk

/-- Fuelled scanner behind the model of string-pattern
`String.prototype.replaceAll`: scan left to right, replace each leftmost
non-overlapping occurrence of `pat`, never rescanning replacement text.
One unit of fuel is spent per consumed character, so `s.length` fuel always
suffices; the wrapper `jsReplaceAll` supplies exactly that. All uses have a
nonempty `pat` (it is always `":" ++ name`). -/
def replaceAllFuel : Nat → List Char → List Char → List Char → List Char
  | 0, _, _, s => s
  | _ + 1, _, _, [] => []
  | fuel + 1, pat, repl, c :: cs =>
    if pat.isPrefixOf (c :: cs) then
      repl ++ replaceAllFuel fuel pat repl (cs.drop (pat.length - 1))
    else
      c :: replaceAllFuel fuel pat repl cs

/-- Model of JS `s.replaceAll(pat, repl)` with a string pattern (line 235;
the polyfill of lines 143-150 builds the same global literal replacement). -/
def jsReplaceAll (s pat repl : String) : String :=
  ⟨replaceAllFuel s.data.length pat.data repl.data s.data⟩

/-- JS `s.slice(0, -1)` (line 232): drop the last character. -/
def sliceDropLast (s : String) : String :=
  ⟨s.data.dropLast⟩

/-- Intercalation over character lists, used to describe SQL texts by their
placeholder-token occurrences: `intercalateL sep [p0, p1, p2]` is
`p0 ++ sep ++ p1 ++ sep ++ p2`. -/
def intercalateL (sep : List Char) : List (List Char) → List Char
  | [] => []
  | [x] => x
  | x :: y :: tl => x ++ sep ++ intercalateL sep (y :: tl)

/-- Lift of `intercalateL` to strings. -/
def intercalateS (sep : String) (parts : List String) : String :=
  ⟨intercalateL sep.data (parts.map String.data)⟩

/-- Concatenation of a list of strings. -/
def joinS : List String → String
  | [] => ""
  | s :: rest => s ++ joinS rest

/-- JS object assignment `acc[key] = value`: overwrite in place if the key exists,
append otherwise (lines 201, 220). -/
def recordSet (m : BindMap) (key : String) (v : BindParameter) : BindMap :=
  if m.any (fun e => e.1 == key) then
    m.map (fun e => if e.1 == key then (key, v) else e)
  else
    m ++ [(key, v)]

/-- Lines 195-207 / 220-226: the bind entry for one (sub-)value, with the
type tag and the coercion both selected by `param.datatype === "number"`. -/
def mkBind (datatype : String) (v : String) : BindParameter :=
  { type := if datatype = "number" then .NUMBER else .STRING,
    val := if datatype = "number" then .num (jsNumber v) else .str v }

/-- The parenthesized IN-clause the loop of lines 214-232 produces for the
given synthetic names: `(:n0,:n1,...,:nk)`. -/
def mkInClause (names : List String) : String :=
  "(" ++ intercalateS "," (names.map (fun nm => ":" ++ nm)) ++ ")"

/-- The synthetic bind names an expanding parameter generates: the original
name concatenated with the suffixes drawn at positions `i, i+1, ...`. -/
def syntheticNames (sfx : Nat → String) (name : String) (i k : Nat) :
    List String :=
  (List.range' i k).map (fun j => name ++ sfx j)

/-- The bind entries the expansion loop appends for sub-values `vals`,
starting at suffix position `i`: one entry per sub-value, keyed by the
synthetic name, valued by the per-type coercion, in split order. -/
def expandedBinds (sfx : Nat → String) (name datatype : String) (i : Nat)
    (vals : List String) : BindMap :=
  List.zipWith (fun j v => (name ++ sfx j, mkBind datatype v))
    (List.range' i vals.length) vals

/-- The raw clause text accumulated by the loop of lines 216-229 (before the
`slice(0, -1)` trim): `:n0,:n1,...,:nk,`. -/
def expandedClause (sfx : Nat → String) (name : String) (i n : Nat) : String :=
  joinS ((List.range' i n).map (fun j => ":" ++ (name ++ sfx j) ++ ","))

/-- State threaded through the parameter `reduce`: the accumulated bind
object, the (mutated) query text, and the number of `crypto.randomUUID()`
calls made so far (the index of the next suffix in the stream). -/
structure CompileState where
  binds : BindMap
  query : String
  counter : Nat
  deriving Repr, DecidableEq

/-- The `for` loop of lines 216-229: one synthetic bind and one `:name,`
clause fragment per split sub-value. `i` is the index of the next suffix
drawn from the stream. -/
def expandLoop (sfx : Nat → String) (pname datatype : String) :
    List String → Nat → BindMap → String → BindMap × String
  | [], _, acc, inClause => (acc, inClause)
  | v :: vs, i, acc, inClause =>
    let uniqueSuffix := sfx i
    let newParamName := pname ++ uniqueSuffix
    expandLoop sfx pname datatype vs (i + 1)
      (recordSet acc newParamName (mkBind datatype v))
      (inClause ++ ":" ++ newParamName ++ ",")

/-- One step of the `reduce` of lines 194-238: a plain bind for a
non-expanding parameter, otherwise split the value, generate the synthetic
binds, and replace `:name` in the query by the parenthesized clause. -/
def processParam (sfx : Nat → String) (st : CompileState) (param : Param) :
    CompileState :=
  if !param.parseInStatement then
    { st with binds := recordSet st.binds param.name (mkBind param.datatype param.value) }
  else
    let valuesArray := jsSplit param.value
    let loopOut := expandLoop sfx param.name param.datatype valuesArray st.counter st.binds "("
    let inClause := sliceDropLast loopOut.2 ++ ")"
    { binds := loopOut.1,
      query := jsReplaceAll st.query (":" ++ param.name) inClause,
      counter := st.counter + valuesArray.length }

/-- The Bind Compiler: the whole `reduce` of lines 193-238 together with the
query mutation it performs through its closure. -/
def compile (sfx : Nat → String) (query : String) (params : List Param) :
    CompileState :=
  params.foldl (processParam sfx) { binds := [], query := query, counter := 0 }

/-- The Limit Clause Injector (lines 240-245): plain concatenation when
`rowLimit > 0`, untouched query otherwise. -/
def applyLimit (sql : String) (rowLimit : Nat) : String :=
  if rowLimit > 0 then sql ++ " FETCH FIRST " ++ toString rowLimit ++ " ROWS ONLY"
  else sql

/-- A returned row: mapping from column name to scalar (OUT_FORMAT_OBJECT). -/
abbrev Row := List (String × String)

/-- The driver result envelope: `rows` (possibly absent), plus the metadata
fields the claims treat opaquely. -/
structure DriverResult where
  rows : Option (List Row)
  metaData : Option (List String)
  rowsAffected : Option Nat
  deriving Repr, DecidableEq

/-- Payload of one output item: either the entire result envelope
(line 258-260) or one row (line 265). -/
inductive Payload where
  | full (result : DriverResult)
  | row (r : Row)
  deriving Repr, DecidableEq

/-- One n8n output item `{ json: ... }`. -/
structure OutputItem where
  json : Payload
  deriving Repr, DecidableEq

/-- The Result Projector (lines 256-267): the whole envelope as a single item
when metadata was requested, else one item per row of `result.rows || []`. -/
def projectResult (result : DriverResult) (includeMetadata : Bool) :
    List OutputItem :=
  if includeMetadata then [{ json := .full result }]
  else (result.rows.getD []).map (fun row => { json := .row row })

/-- The `NodeOperationError` wrapper thrown by the catch block (line 269). -/
structure NodeOperationError where
  message : String
  deriving Repr, DecidableEq

/-- The body of `execute` from line 170 on: compile the binds, append the
limit clause, run the driver `execute`, project the result; the catch block
wraps a driver failure in `NodeOperationError`; the finally block runs exactly
once on every path, always invokes `connection.close()` once (the connection
is non-null there), and a close failure is caught and only logged. The second
component counts `close()` invocations; the third is the log produced by the
close handler (line 276). -/
def executeNode (sfx : Nat → String) (query : String) (parameterList : List Param)
    (includeMetadata : Bool) (rowLimit : Nat)
    (connExecute : String → BindMap → Except String DriverResult)
    (connClose : Except String Unit) :
    Except NodeOperationError (List (List OutputItem)) × Nat × List String :=
  let st := compile sfx query parameterList
  let sqlFinal := applyLimit st.query rowLimit
  let attempt : Except NodeOperationError (List OutputItem) :=
    match connExecute sqlFinal st.binds with
    | .ok result => .ok (projectResult result includeMetadata)
    | .error e => .error { message := e }
  let closeLogs : List String :=
    match connClose with
    | .ok _ => []
    | .error closeErr => ["Error closing connection with OracleDB: " ++ closeErr]
  (attempt.map (fun items => [items]), 1, closeLogs)

/-! String and scanner lemmas -/

theorem dataAppend (a b : String) : (a ++ b).data = a.data ++ b.data := rfl

theorem stringDataInj {a b : String} (h : a.data = b.data) : a = b :=
  congrArg String.mk h

theorem strAppendNil (s : String) : s ++ "" = s := by
  apply stringDataInj
  show s.data ++ ([] : List Char) = s.data
  simp

theorem strAppendAssoc (a b c : String) : a ++ b ++ c = a ++ (b ++ c) := by
  apply stringDataInj
  simp [dataAppend]

/-- A scan never rewrites a string free of the pattern's head character. -/
theorem replaceAllFuel_no_head (ph : Char) (pt r : List Char) :
    ∀ (f : Nat) (s : List Char), ph ∉ s →
      replaceAllFuel f (ph :: pt) r s = s := by
  intro f s
  induction s generalizing f with
  | nil => cases f <;> simp [replaceAllFuel]
  | cons c cs ih =>
    intro h
    have hph : ph ≠ c := fun he => h (he ▸ List.mem_cons_self _ _)
    have hcs : ph ∉ cs := fun he => h (List.mem_cons_of_mem _ he)
    cases f with
    | zero => rfl
    | succ f' =>
      have hpref : (ph :: pt).isPrefixOf (c :: cs) = false := by
        simp [List.isPrefixOf_cons₂, hph]
      simp [replaceAllFuel, hpref, ih f' hcs]

/-- A scan passes unchanged over a leading segment free of the pattern's
head character, spending exactly one unit of fuel per character. -/
theorem replaceAllFuel_skip (ph : Char) (pt r : List Char) :
    ∀ (x : List Char) (f : Nat) (rest : List Char), ph ∉ x →
      replaceAllFuel (x.length + f) (ph :: pt) r (x ++ rest) =
        x ++ replaceAllFuel f (ph :: pt) r rest := by
  intro x
  induction x with
  | nil => intro f rest _; simp
  | cons c x' ih =>
    intro f rest h
    have hph : ph ≠ c := fun he => h (he ▸ List.mem_cons_self _ _)
    have hx' : ph ∉ x' := fun he => h (List.mem_cons_of_mem _ he)
    have hpref : (ph :: pt).isPrefixOf (c :: (x' ++ rest)) = false := by
      simp [List.isPrefixOf_cons₂, hph]
    have hlen : (c :: x').length + f = (x'.length + f) + 1 := by
      simp [Nat.add_comm, Nat.add_assoc, Nat.add_left_comm]
    rw [hlen]
    simp [List.cons_append, replaceAllFuel, hpref, ih f rest hx']

/-- A pattern is a `BEq`-prefix of itself followed by anything. -/
theorem isPrefixOf_self_append (pat rest : List Char) :
    pat.isPrefixOf (pat ++ rest) = true := by
  induction pat with
  | nil => simp
  | cons a as ih => simp [List.isPrefixOf_cons₂, ih]

/-- A scan finding the pattern at the head replaces it and resumes right
after it, spending one unit of fuel. -/
theorem replaceAllFuel_head_match (ph : Char) (pt r rest : List Char) (f : Nat) :
    replaceAllFuel (f + 1) (ph :: pt) r ((ph :: pt) ++ rest) =
      r ++ replaceAllFuel f (ph :: pt) r rest := by
  have hpref : (ph :: pt).isPrefixOf ((ph :: pt) ++ rest) = true :=
    isPrefixOf_self_append _ _
  simp only [List.cons_append] at hpref ⊢
  simp only [replaceAllFuel, hpref, if_pos]
  have : (pt ++ rest).drop ((ph :: pt).length - 1) = rest := by
    rw [show (ph :: pt).length - 1 = pt.length from by simp]
    exact List.drop_left pt rest
  rw [this]

/-- Spending one more unit of fuel than the input length changes nothing. -/
theorem replaceAllFuel_succ (pat r : List Char) :
    ∀ (f : Nat) (s : List Char), s.length ≤ f →
      replaceAllFuel (f + 1) pat r s = replaceAllFuel f pat r s := by
  intro f
  induction f with
  | zero =>
    intro s hs
    have : s = [] := List.eq_nil_of_length_eq_zero (Nat.le_zero.mp hs)
    subst this; simp [replaceAllFuel]
  | succ f' ih =>
    intro s hs
    cases s with
    | nil => simp [replaceAllFuel]
    | cons c cs =>
      have hcs : cs.length ≤ f' := Nat.succ_le_succ_iff.mp hs
      by_cases hpref : pat.isPrefixOf (c :: cs) = true
      · have hdrop : (cs.drop (pat.length - 1)).length ≤ f' :=
          le_trans (by simp) hcs
        simp [replaceAllFuel, hpref, ih _ hdrop]
      · simp [replaceAllFuel, hpref, ih _ hcs]

/-- Fuel beyond the input length is irrelevant. -/
theorem replaceAllFuel_of_le (pat r : List Char) {f g : Nat} {s : List Char}
    (hs : s.length ≤ f) (hf : f ≤ g) :
    replaceAllFuel g pat r s = replaceAllFuel f pat r s := by
  induction g, hf using Nat.le_induction with
  | base => rfl
  | succ g hg ih =>
    rw [replaceAllFuel_succ pat r g s (le_trans hs hg), ih]

/-- In a text assembled as `p0 ++ tok ++ p1 ++ ... ++ tok ++ pk` whose pieces
are free of the token's head character, the scan replaces exactly the
assembly points: every occurrence of the token is rewritten. -/
theorem replaceAllFuel_intercalate (ph : Char) (pt r : List Char) :
    ∀ (parts : List (List Char)), parts ≠ [] → (∀ x ∈ parts, ph ∉ x) →
      replaceAllFuel (intercalateL (ph :: pt) parts).length (ph :: pt) r
        (intercalateL (ph :: pt) parts) = intercalateL r parts := by
  intro parts
  induction parts with
  | nil => intro h; exact absurd rfl h
  | cons x rest ih =>
    intro _ hno
    cases rest with
    | nil =>
      simp only [intercalateL]
      exact replaceAllFuel_no_head ph pt r _ x (hno x (by simp))
    | cons y tl =>
      have hx : ph ∉ x := hno x (by simp)
      have hrest : ∀ z ∈ y :: tl, ph ∉ z := fun z hz => hno z (by simp [hz])
      have ihr := ih (by simp) hrest
      rw [show intercalateL (ph :: pt) (x :: y :: tl)
            = x ++ ((ph :: pt) ++ intercalateL (ph :: pt) (y :: tl)) from by
        simp [intercalateL]]
      rw [show intercalateL r (x :: y :: tl)
            = x ++ (r ++ intercalateL r (y :: tl)) from by
        simp [intercalateL]]
      rw [show (x ++ ((ph :: pt) ++ intercalateL (ph :: pt) (y :: tl))).length
            = x.length + ((ph :: pt) ++ intercalateL (ph :: pt) (y :: tl)).length
          from by simp]
      rw [replaceAllFuel_skip ph pt r x _ _ hx]
      congr 1
      rw [show ((ph :: pt) ++ intercalateL (ph :: pt) (y :: tl)).length
            = (pt.length + (intercalateL (ph :: pt) (y :: tl)).length) + 1
          from by simp [Nat.add_comm, Nat.add_assoc, Nat.add_left_comm]]
      rw [replaceAllFuel_head_match]
      congr 1
      rw [replaceAllFuel_of_le (ph :: pt) r (Nat.le_refl _) (Nat.le_add_left _ _)]
      exact ihr

/-- Action of `jsReplaceAll` on a SQL text whose occurrences of the placeholder token
`:name` are exactly the assembly points of colon-free pieces: every
occurrence is replaced by the replacement text. -/
theorem jsReplaceAll_intercalateS (name repl : String) (parts : List String)
    (hne : parts ≠ []) (hno : ∀ x ∈ parts, ':' ∉ x.data) :
    jsReplaceAll (intercalateS (":" ++ name) parts) (":" ++ name) repl =
      intercalateS repl parts := by
  apply stringDataInj
  have hd : (":" ++ name).data = ':' :: name.data := rfl
  show replaceAllFuel (intercalateS (":" ++ name) parts).data.length
      (":" ++ name).data repl.data (intercalateS (":" ++ name) parts).data
    = (intercalateS repl parts).data
  rw [show (intercalateS (":" ++ name) parts).data
        = intercalateL (':' :: name.data) (parts.map String.data) from by
      simp [intercalateS, hd]]
  rw [show (intercalateS repl parts).data
        = intercalateL repl.data (parts.map String.data) from rfl]
  exact replaceAllFuel_intercalate ':' name.data repl.data (parts.map String.data)
    (by simpa using hne)
    (by intro l hl
        obtain ⟨s, hs, rfl⟩ := List.mem_map.mp hl
        exact hno s hs)

/-! Clause assembly lemmas -/

theorem joinComma_ne_nil (r : String) (rest : List String) :
    (joinS ((r :: rest).map (fun s => s ++ ","))).data ≠ [] := by
  simp [joinS, dataAppend]

/-- Dropping the final character of `r0, ++ r1, ++ ... ++ rk,` yields the
comma-intercalation of the pieces. -/
theorem dropLast_joinComma (refs : List String) :
    refs ≠ [] →
    (joinS (refs.map (fun s => s ++ ","))).data.dropLast =
      (intercalateS "," refs).data := by
  induction refs with
  | nil => intro h; exact absurd rfl h
  | cons r rest ih =>
    intro _
    cases rest with
    | nil =>
      show ((r ++ ",") ++ joinS []).data.dropLast = _
      rw [show joinS [] = "" from rfl, strAppendNil]
      rw [show (r ++ ",").data = r.data ++ [','] from rfl]
      rw [List.dropLast_concat]
      rfl
    | cons r2 rest2 =>
      show ((r ++ ",") ++ joinS ((r2 :: rest2).map (fun s => s ++ ","))).data.dropLast = _
      rw [dataAppend]
      rw [List.dropLast_append_of_ne_nil _ (joinComma_ne_nil r2 rest2)]
      rw [ih (by simp)]
      rfl

/-- Lines 214-232: `("(" ++ body).slice(0, -1) ++ ")"`, for the body the
loop builds, is the parenthesized comma-intercalated clause. -/
theorem sliceClause (refs : List String) (hne : refs ≠ []) :
    sliceDropLast ("(" ++ joinS (refs.map (fun s => s ++ ","))) ++ ")" =
      "(" ++ intercalateS "," refs ++ ")" := by
  apply stringDataInj
  cases refs with
  | nil => exact absurd rfl hne
  | cons r rest =>
    show (("(" ++ joinS ((r :: rest).map (fun s => s ++ ","))).data.dropLast) ++ [')'] = _
    rw [show ("(" ++ joinS ((r :: rest).map (fun s => s ++ ","))).data
          = '(' :: (joinS ((r :: rest).map (fun s => s ++ ","))).data from rfl]
    rw [show ('(' :: (joinS ((r :: rest).map (fun s => s ++ ","))).data)
          = ['('] ++ (joinS ((r :: rest).map (fun s => s ++ ","))).data from rfl]
    rw [List.dropLast_append_of_ne_nil _ (joinComma_ne_nil r rest)]
    rw [dropLast_joinComma (r :: rest) (by simp)]
    simp [dataAppend]

/-! Split lemmas -/

theorem jsSplitChars_ne_nil (sep : Char) (l : List Char) :
    jsSplitChars sep l ≠ [] := by
  induction l with
  | nil => simp [jsSplitChars]
  | cons c cs ih =>
    simp only [jsSplitChars]
    cases h : jsSplitChars sep cs with
    | nil => exact absurd h ih
    | cons hd tl => by_cases hc : c = sep <;> simp [hc]

theorem jsSplit_ne_nil (s : String) : jsSplit s ≠ [] := by
  simp [jsSplit, jsSplitChars_ne_nil]

theorem jsSplit_length_pos (s : String) : 0 < (jsSplit s).length :=
  List.length_pos.mpr (jsSplit_ne_nil s)

/-- A value free of commas splits into the single-element list. -/
theorem jsSplitChars_no_sep (sep : Char) (l : List Char) (h : sep ∉ l) :
    jsSplitChars sep l = [l] := by
  induction l with
  | nil => rfl
  | cons c cs ih =>
    have hc : c ≠ sep := fun he => h (he ▸ List.mem_cons_self _ _)
    have hcs : sep ∉ cs := fun he => h (List.mem_cons_of_mem _ he)
    simp [jsSplitChars, ih hcs, hc]

theorem jsSplit_no_comma (s : String) (h : ',' ∉ s.data) :
    jsSplit s = [s] := by
  simp [jsSplit, jsSplitChars_no_sep ',' s.data h]

/-! Bind map lemmas -/

theorem recordSet_fresh (m : BindMap) (k : String) (v : BindParameter)
    (h : ∀ e ∈ m, e.1 ≠ k) : recordSet m k v = m ++ [(k, v)] := by
  have hany : m.any (fun e => e.1 == k) = false := by
    rw [List.any_eq_false]
    intro e he
    simpa using h e he
  simp [recordSet, hany]

theorem expandedBinds_cons (sfx : Nat → String) (name datatype v : String)
    (vs : List String) (i : Nat) :
    expandedBinds sfx name datatype i (v :: vs) =
      (name ++ sfx i, mkBind datatype v) :: expandedBinds sfx name datatype (i + 1) vs := by
  simp [expandedBinds, List.range'_succ]

theorem expandedClause_cons (sfx : Nat → String) (name : String) (i k : Nat) :
    expandedClause sfx name i (k + 1) =
      (":" ++ (name ++ sfx i) ++ ",") ++ expandedClause sfx name (i + 1) k := by
  simp [expandedClause, List.range'_succ, joinS]

/-- The loop of lines 216-229, run from suffix position `i` on fresh names:
it appends one bind per sub-value (split order, synthetic keys) and one
`:name,` fragment per sub-value to the clause text. -/
theorem expandLoop_spec (sfx : Nat → String) (pname datatype : String) :
    ∀ (vals : List String) (i : Nat) (acc : BindMap) (cl : String),
      (∀ j, j < vals.length → ∀ e ∈ acc, e.1 ≠ pname ++ sfx (i + j)) →
      (∀ j j', j < vals.length → j' < vals.length →
        pname ++ sfx (i + j) = pname ++ sfx (i + j') → j = j') →
      expandLoop sfx pname datatype vals i acc cl =
        (acc ++ expandedBinds sfx pname datatype i vals,
         cl ++ expandedClause sfx pname i vals.length) := by
  intro vals
  induction vals with
  | nil =>
    intro i acc cl _ _
    simp [expandLoop, expandedBinds, expandedClause, joinS, strAppendNil]
  | cons v vs ih =>
    intro i acc cl hfresh hpair
    have hfresh0 : ∀ e ∈ acc, e.1 ≠ pname ++ sfx i := by
      intro e he
      have := hfresh 0 (by simp) e he
      simpa using this
    have hf' : ∀ j, j < vs.length →
        ∀ e ∈ acc ++ [(pname ++ sfx i, mkBind datatype v)],
          e.1 ≠ pname ++ sfx (i + 1 + j) := by
      intro j hj e he
      rcases List.mem_append.mp he with hacc | hsing
      · have h1 := hfresh (j + 1) (by simpa using Nat.succ_lt_succ hj) e hacc
        rwa [show i + (j + 1) = i + 1 + j from by omega] at h1
      · have he0 : e = (pname ++ sfx i, mkBind datatype v) := by simpa using hsing
        subst he0
        intro heq
        have h2 := hpair 0 (j + 1) (by simp) (by simpa using Nat.succ_lt_succ hj)
          (by rw [Nat.add_zero, show i + (j + 1) = i + 1 + j from by omega]; exact heq)
        omega
    have hp' : ∀ j j', j < vs.length → j' < vs.length →
        pname ++ sfx (i + 1 + j) = pname ++ sfx (i + 1 + j') → j = j' := by
      intro j j' hj hj' heq
      have h3 := hpair (j + 1) (j' + 1) (by simpa using Nat.succ_lt_succ hj)
        (by simpa using Nat.succ_lt_succ hj')
        (by rw [show i + (j + 1) = i + 1 + j from by omega,
                show i + (j' + 1) = i + 1 + j' from by omega]; exact heq)
      omega
    show expandLoop sfx pname datatype vs (i + 1)
        (recordSet acc (pname ++ sfx i) (mkBind datatype v))
        (cl ++ ":" ++ (pname ++ sfx i) ++ ",") = _
    rw [recordSet_fresh _ _ _ hfresh0]
    rw [ih (i + 1) _ _ hf' hp']
    apply Prod.ext
    · show (acc ++ [(pname ++ sfx i, mkBind datatype v)]) ++
          expandedBinds sfx pname datatype (i + 1) vs = _
      rw [expandedBinds_cons]
      simp
    · show (cl ++ ":" ++ (pname ++ sfx i) ++ ",") ++
          expandedClause sfx pname (i + 1) vs.length = _
      rw [show (v :: vs).length = vs.length + 1 from rfl, expandedClause_cons]
      apply stringDataInj
      simp [dataAppend]

/-- The fold of lines 193-238 over parameters none of which expands: the
query is untouched and the bind map gains exactly one entry per parameter,
keyed by its own name, in order. -/
theorem foldl_nonexpanding (sfx : Nat → String) :
    ∀ (params : List Param) (st : CompileState),
      (∀ p ∈ params, p.parseInStatement = false) →
      (params.map (fun p => p.name)).Nodup →
      (∀ p ∈ params, ∀ e ∈ st.binds, e.1 ≠ p.name) →
      List.foldl (processParam sfx) st params =
        { binds := st.binds ++ params.map (fun p => (p.name, mkBind p.datatype p.value)),
          query := st.query, counter := st.counter } := by
  intro params
  induction params with
  | nil =>
    intro st _ _ _
    cases st
    simp
  | cons p ps ih =>
    intro st hflag hnodup hfresh
    rw [List.foldl_cons]
    have hpflag : p.parseInStatement = false := hflag p (by simp)
    have hstep : processParam sfx st p =
        { st with binds := st.binds ++ [(p.name, mkBind p.datatype p.value)] } := by
      simp [processParam, hpflag,
        recordSet_fresh _ _ _ (fun e he => hfresh p (by simp) e he)]
    rw [hstep]
    have hnotin : p.name ∉ ps.map (fun q => q.name) := by
      have := hnodup
      simp only [List.map_cons, List.nodup_cons] at this
      exact this.1
    rw [ih { st with binds := st.binds ++ [(p.name, mkBind p.datatype p.value)] }
        (fun q hq => hflag q (by simp [hq]))
        (by simpa using hnodup.of_cons)
        ?fr]
    · simp
    case fr =>
      intro q hq e he
      rcases List.mem_append.mp he with hacc | hsing
      · exact hfresh q (by simp [hq]) e hacc
      · have he0 : e = (p.name, mkBind p.datatype p.value) := by simpa using hsing
        subst he0
        show p.name ≠ q.name
        intro heq
        exact hnotin (heq ▸ List.mem_map.mpr ⟨q, hq, rfl⟩)

theorem syntheticNames_length (sfx : Nat → String) (name : String) (i k : Nat) :
    (syntheticNames sfx name i k).length = k := by
  simp [syntheticNames]

theorem expandedClause_eq (sfx : Nat → String) (name : String) (i n : Nat) :
    expandedClause sfx name i n =
      joinS (((syntheticNames sfx name i n).map (fun nm => ":" ++ nm)).map
        (fun s => s ++ ",")) := by
  simp only [expandedClause, syntheticNames, List.map_map]
  rfl

/-- Compiling a single expanding parameter: the bind map is exactly the
synthetic entries in split order, the query is the input with every
occurrence of `:name` replaced by the parenthesized clause, and one suffix
was drawn per sub-value. -/
theorem compile_single_expand (sfx : Nat → String) (sql name value datatype : String)
    (hpair : ∀ j j', j < (jsSplit value).length → j' < (jsSplit value).length →
      name ++ sfx j = name ++ sfx j' → j = j') :
    compile sfx sql [⟨name, value, datatype, true⟩] =
      { binds := expandedBinds sfx name datatype 0 (jsSplit value),
        query := jsReplaceAll sql (":" ++ name)
          (mkInClause (syntheticNames sfx name 0 (jsSplit value).length)),
        counter := (jsSplit value).length } := by
  have hk : 0 < (jsSplit value).length := jsSplit_length_pos value
  have hloop := expandLoop_spec sfx name datatype (jsSplit value) 0 [] "("
    (by intro j hj e he; simp at he)
    (by intro j j' hj hj' heq
        exact hpair j j' hj hj' (by simpa using heq))
  have hclause : sliceDropLast ("(" ++ expandedClause sfx name 0 (jsSplit value).length) ++ ")" =
      mkInClause (syntheticNames sfx name 0 (jsSplit value).length) := by
    rw [expandedClause_eq]
    rw [sliceClause _ ?ne]
    · rfl
    case ne =>
      have : (syntheticNames sfx name 0 (jsSplit value).length).length =
          (jsSplit value).length := syntheticNames_length _ _ _ _
      intro hnil
      rw [List.map_eq_nil_iff] at hnil
      rw [hnil] at this
      simp at this
      omega
  show processParam sfx { binds := [], query := sql, counter := 0 }
      ⟨name, value, datatype, true⟩ = _
  unfold processParam
  simp only [Bool.not_true, Bool.false_eq_true, if_false]
  rw [hloop]
  simp only [CompileState.mk.injEq]
  refine ⟨by simp, ?_, by simp⟩
  show jsReplaceAll sql (":" ++ name)
      (sliceDropLast ("(" ++ expandedClause sfx name 0 (jsSplit value).length) ++ ")") = _
  rw [hclause]

theorem strAppendLeftCancel {a x y : String} (h : a ++ x = a ++ y) : x = y := by
  have hd := congrArg String.data h
  rw [dataAppend, dataAppend] at hd
  exact stringDataInj (List.append_cancel_left hd)

theorem zipWith_fst_eq (f : Nat → String) (g : String → BindParameter) :
    ∀ (js : List Nat) (vs : List String), js.length = vs.length →
      (List.zipWith (fun j v => (f j, g v)) js vs).map Prod.fst = js.map f := by
  intro js
  induction js with
  | nil => intro vs _; simp
  | cons j js ih =>
    intro vs h
    cases vs with
    | nil => simp at h
    | cons v vs => simp [ih vs (by simpa using h)]

/-- The keys the expansion loop generates are exactly the synthetic names. -/
theorem expandedBinds_keys (sfx : Nat → String) (name datatype : String)
    (i : Nat) (vals : List String) :
    (expandedBinds sfx name datatype i vals).map Prod.fst =
      syntheticNames sfx name i vals.length := by
  unfold expandedBinds syntheticNames
  exact zipWith_fst_eq _ _ _ _ (by simp)

/-- The suffix stream is never consulted while folding over parameters none
of which expands. -/
theorem foldl_sfx_irrelevant (sfx1 sfx2 : Nat → String) :
    ∀ (params : List Param) (st : CompileState),
      (∀ p ∈ params, p.parseInStatement = false) →
      List.foldl (processParam sfx1) st params =
        List.foldl (processParam sfx2) st params := by
  intro params
  induction params with
  | nil => intro st _; rfl
  | cons p ps ih =>
    intro st hflag
    have hp : p.parseInStatement = false := hflag p (by simp)
    rw [List.foldl_cons, List.foldl_cons]
    rw [show processParam sfx1 st p = processParam sfx2 st p from by
      simp [processParam, hp]]
    exact ih _ (fun q hq => hflag q (by simp [hq]))

/-! Claims -/

/-- C3: with no expand-as-list parameter, the compiled SQL is the input SQL
character for character, and the bind map holds exactly one entry per
supplied parameter keyed by its own name; the value is the JS numeric parse
of the raw value for NUMBER and the raw string for STRING. -/
theorem nonExpandingCompilation (sfx : Nat → String) (sql : String)
    (params : List Param)
    (hflag : ∀ p ∈ params, p.parseInStatement = false)
    (hnames : (params.map (fun p => p.name)).Nodup) :
    compile sfx sql params =
      { binds := params.map (fun p => (p.name, mkBind p.datatype p.value)),
        query := sql, counter := 0 }
    ∧ (∀ v, mkBind "number" v = { type := .NUMBER, val := .num (jsNumber v) })
    ∧ (∀ v, mkBind "string" v = { type := .STRING, val := .str v }) := by
  refine ⟨?_, fun v => by simp [mkBind], fun v => by simp [mkBind]⟩
  have h := foldl_nonexpanding sfx params { binds := [], query := sql, counter := 0 }
    hflag hnames (by intro p hp e he; simp at he)
  simpa [compile] using h

/-- Witness for C3 at a concrete two-parameter input. -/
theorem nonExpandingCompilation_witness :
    ((∀ p ∈ ([⟨"a", "12", "number", false⟩, ⟨"b", "x,y", "string", false⟩] : List Param),
        p.parseInStatement = false)
      ∧ (([⟨"a", "12", "number", false⟩, ⟨"b", "x,y", "string", false⟩] : List Param).map
          (fun p => p.name)).Nodup)
    ∧ (compile (fun _ => "_u") "SELECT * FROM t WHERE a = :a AND b = :b"
        [⟨"a", "12", "number", false⟩, ⟨"b", "x,y", "string", false⟩] =
        { binds := ([⟨"a", "12", "number", false⟩, ⟨"b", "x,y", "string", false⟩] : List Param).map
            (fun p => (p.name, mkBind p.datatype p.value)),
          query := "SELECT * FROM t WHERE a = :a AND b = :b", counter := 0 }
      ∧ (∀ v, mkBind "number" v = { type := .NUMBER, val := .num (jsNumber v) })
      ∧ (∀ v, mkBind "string" v = { type := .STRING, val := .str v })) :=
  ⟨⟨by decide, by decide⟩,
    nonExpandingCompilation (fun _ => "_u") "SELECT * FROM t WHERE a = :a AND b = :b"
      [⟨"a", "12", "number", false⟩, ⟨"b", "x,y", "string", false⟩]
      (by decide) (by decide)⟩

/-- C6: the Limit Clause Injector returns the SQL unchanged for
`rowLimit = 0` and otherwise appends a space and the `FETCH FIRST n ROWS
ONLY` clause verbatim, with no inspection of the existing text. -/
theorem limitClauseInjector (sql : String) (n : Nat) :
    applyLimit sql 0 = sql
    ∧ (0 < n →
        applyLimit sql n = sql ++ " FETCH FIRST " ++ toString n ++ " ROWS ONLY") := by
  constructor
  · simp [applyLimit]
  · intro hn
    simp [applyLimit, hn]

/-- Witness for C6 at `rowLimit = 100`. -/
theorem limitClauseInjector_witness :
    (0 : Nat) < 100
    ∧ applyLimit "SELECT 1" 100 =
        "SELECT 1" ++ " FETCH FIRST " ++ toString (100 : Nat) ++ " ROWS ONLY" :=
  ⟨by decide, (limitClauseInjector "SELECT 1" 100).2 (by decide)⟩

/-- C7 counterexample: a NUMBER-typed parameter with the non-numeric value
`"abc"` does not fail bind compilation; it produces a bind entry whose value
is NaN, contradicting the claimed `ParameterBindingError`. -/
theorem numberValidationCounterexample :
    (compile (fun _ => "") "SELECT * FROM t WHERE id = :p"
      [{ name := "p", value := "abc", datatype := "number", parseInStatement := false }]).binds
    = [("p", { type := .NUMBER, val := .num .nan })] := by decide

/-- C7 amended: bind compilation never fails; a non-expanding NUMBER
parameter always yields exactly one bind entry whose value is the JS numeric
coercion of the raw value, which is NaN whenever the value is not numeric. -/
theorem numberCoercionNeverFails (sfx : Nat → String) (sql : String) (p : Param)
    (hdt : p.datatype = "number") (hflag : p.parseInStatement = false) :
    compile sfx sql [p] =
      { binds := [(p.name, { type := .NUMBER, val := .num (jsNumber p.value) })],
        query := sql, counter := 0 } := by
  have h := foldl_nonexpanding sfx [p] { binds := [], query := sql, counter := 0 }
    (by intro q hq; rw [List.mem_singleton] at hq; subst hq; exact hflag)
    (by simp) (by intro q hq e he; simp at he)
  show List.foldl (processParam sfx) { binds := [], query := sql, counter := 0 } [p] = _
  rw [h]
  simp [mkBind, hdt]

/-- Witness for C7's amended theorem at the non-numeric value `"abc"`. -/
theorem numberCoercionNeverFails_witness :
    ((⟨"p", "abc", "number", false⟩ : Param).datatype = "number"
      ∧ (⟨"p", "abc", "number", false⟩ : Param).parseInStatement = false)
    ∧ compile (fun _ => "_u") "SELECT 1"
        [{ name := "p", value := "abc", datatype := "number", parseInStatement := false }] =
      { binds := [("p", { type := .NUMBER, val := .num (jsNumber "abc") })],
        query := "SELECT 1", counter := 0 } :=
  ⟨⟨rfl, rfl⟩,
    numberCoercionNeverFails (fun _ => "_u") "SELECT 1"
      ⟨"p", "abc", "number", false⟩ rfl rfl⟩

/-- C10: any declared dataType other than `"number"` (not only `"string"`)
yields a STRING-tagged bind whose value is the raw value as a string;
compilation is total, with no error branch for unknown dataTypes. -/
theorem unknownDatatypeTreatedAsString (sfx : Nat → String) (sql : String)
    (p : Param) (hdt : p.datatype ≠ "number") (hflag : p.parseInStatement = false) :
    compile sfx sql [p] =
      { binds := [(p.name, { type := .STRING, val := .str p.value })],
        query := sql, counter := 0 } := by
  have h := foldl_nonexpanding sfx [p] { binds := [], query := sql, counter := 0 }
    (by intro q hq; rw [List.mem_singleton] at hq; subst hq; exact hflag)
    (by simp) (by intro q hq e he; simp at he)
  show List.foldl (processParam sfx) { binds := [], query := sql, counter := 0 } [p] = _
  rw [h]
  simp [mkBind, hdt]

/-- Witness for C10 at the unrecognized dataType `"weird"`. -/
theorem unknownDatatypeTreatedAsString_witness :
    ((⟨"x", "v", "weird", false⟩ : Param).datatype ≠ "number"
      ∧ (⟨"x", "v", "weird", false⟩ : Param).parseInStatement = false)
    ∧ compile (fun _ => "_u") "SELECT 1"
        [{ name := "x", value := "v", datatype := "weird", parseInStatement := false }] =
      { binds := [("x", { type := .STRING, val := .str "v" })],
        query := "SELECT 1", counter := 0 } :=
  ⟨⟨by decide, rfl⟩,
    unknownDatatypeTreatedAsString (fun _ => "_u") "SELECT 1"
      ⟨"x", "v", "weird", false⟩ (by decide) rfl⟩

/-- C1: evaluation of the compiler at a query holding both `:category` and
`:cat` while expanding the parameter `cat`: the `replaceAll` of line 235 is
plain substring replacement, so the `:cat` prefix of the distinct token
`:category` is rewritten as well, contradicting token-boundary-aware
replacement. -/
theorem tokenBoundaryViolation :
    (compile (fun i => "_sfx" ++ toString i)
      "SELECT * FROM t WHERE a = :category AND b IN (:cat)"
      [{ name := "cat", value := "7", datatype := "number", parseInStatement := true }]).query
    = "SELECT * FROM t WHERE a = (:cat_sfx0)egory AND b IN ((:cat_sfx0))" := by
  decide

/-- C2: compiling an expanding parameter whose value splits into k sub-values
adds exactly k synthetic bind entries (original name plus a fresh suffix,
coerced per declared type, in split order), and every occurrence of the
original placeholder token `:name` is replaced by a parenthesized,
comma-separated list of exactly those k synthetic placeholder references. -/
theorem expandAsListCompilation (sfx : Nat → String) (name value datatype : String)
    (parts : List String)
    (hne : parts ≠ []) (hparts : ∀ x ∈ parts, ':' ∉ x.data)
    (hpair : ∀ j, j < (jsSplit value).length → ∀ j', j' < (jsSplit value).length →
      name ++ sfx j = name ++ sfx j' → j = j') :
    (compile sfx (intercalateS (":" ++ name) parts)
        [⟨name, value, datatype, true⟩]).binds.length = (jsSplit value).length
    ∧ (syntheticNames sfx name 0 (jsSplit value).length).length = (jsSplit value).length
    ∧ compile sfx (intercalateS (":" ++ name) parts) [⟨name, value, datatype, true⟩] =
        { binds := expandedBinds sfx name datatype 0 (jsSplit value),
          query := intercalateS
            (mkInClause (syntheticNames sfx name 0 (jsSplit value).length)) parts,
          counter := (jsSplit value).length } := by
  have h1 := compile_single_expand sfx (intercalateS (":" ++ name) parts) name value
    datatype (fun j j' hj hj' => hpair j hj j' hj')
  have h2 := jsReplaceAll_intercalateS name
    (mkInClause (syntheticNames sfx name 0 (jsSplit value).length)) parts hne hparts
  refine ⟨?_, syntheticNames_length _ _ _ _, ?_⟩
  · rw [h1]
    simp [expandedBinds]
  · rw [h1, h2]

/-- Witness for C2 at the spec's own scenario: value `"1,2,3"` (k = 3). -/
theorem expandAsListCompilation_witness :
    ((["SELECT id FROM t WHERE id IN ", " ORDER BY id"] : List String) ≠ []
      ∧ (∀ x ∈ (["SELECT id FROM t WHERE id IN ", " ORDER BY id"] : List String),
          ':' ∉ x.data)
      ∧ (∀ j, j < (jsSplit "1,2,3").length → ∀ j', j' < (jsSplit "1,2,3").length →
          "ids" ++ ("_s" ++ toString j) = "ids" ++ ("_s" ++ toString j') → j = j'))
    ∧ ((compile (fun i => "_s" ++ toString i)
          (intercalateS (":" ++ "ids") ["SELECT id FROM t WHERE id IN ", " ORDER BY id"])
          [⟨"ids", "1,2,3", "number", true⟩]).binds.length = (jsSplit "1,2,3").length
      ∧ (syntheticNames (fun i => "_s" ++ toString i) "ids" 0
          (jsSplit "1,2,3").length).length = (jsSplit "1,2,3").length
      ∧ compile (fun i => "_s" ++ toString i)
          (intercalateS (":" ++ "ids") ["SELECT id FROM t WHERE id IN ", " ORDER BY id"])
          [⟨"ids", "1,2,3", "number", true⟩] =
        { binds := expandedBinds (fun i => "_s" ++ toString i) "ids" "number" 0
            (jsSplit "1,2,3"),
          query := intercalateS
            (mkInClause (syntheticNames (fun i => "_s" ++ toString i) "ids" 0
              (jsSplit "1,2,3").length))
            ["SELECT id FROM t WHERE id IN ", " ORDER BY id"],
          counter := (jsSplit "1,2,3").length }) :=
  ⟨⟨by decide, by decide, by decide⟩,
    expandAsListCompilation (fun i => "_s" ++ toString i) "ids" "1,2,3" "number"
      ["SELECT id FROM t WHERE id IN ", " ORDER BY id"]
      (by decide) (by decide) (by decide)⟩

/-- C4: with metadata requested the projector emits exactly one item carrying
the whole driver envelope (any row count, including zero); without it, one
item per row with the row mapping as payload, so zero rows give zero items. -/
theorem resultProjection (result : DriverResult) :
    projectResult result true = [{ json := .full result }]
    ∧ projectResult result false =
        (result.rows.getD []).map (fun row => { json := .row row })
    ∧ (projectResult result true).length = 1
    ∧ (projectResult result false).length = (result.rows.getD []).length := by
  refine ⟨rfl, rfl, rfl, ?_⟩
  simp [projectResult]

/-- C5: the finally block closes the connection exactly once on every exit
path, and the invocation's result is independent of the close outcome: a
close failure neither replaces a successful result nor suppresses an
execution failure. -/
theorem connectionReleaseInvariant (sfx : Nat → String) (query : String)
    (params : List Param) (includeMetadata : Bool) (rowLimit : Nat)
    (connExecute : String → BindMap → Except String DriverResult)
    (close1 close2 : Except String Unit) :
    (executeNode sfx query params includeMetadata rowLimit connExecute close1).2.1 = 1
    ∧ (executeNode sfx query params includeMetadata rowLimit connExecute close1).1 =
        (executeNode sfx query params includeMetadata rowLimit connExecute close2).1 :=
  ⟨rfl, rfl⟩

/-- C8: an expanding parameter whose value has no comma is treated as a
single-element list: exactly one synthetic bind is added and the placeholder
becomes a parenthesized clause with exactly one reference; the empty value
gives one bind holding the empty string (STRING) or zero (NUMBER). -/
theorem singleElementExpansion (sfx : Nat → String) (name value datatype : String)
    (parts : List String)
    (hv : ',' ∉ value.data) (hne : parts ≠ [])
    (hparts : ∀ x ∈ parts, ':' ∉ x.data) :
    compile sfx (intercalateS (":" ++ name) parts) [⟨name, value, datatype, true⟩] =
      { binds := [(name ++ sfx 0, mkBind datatype value)],
        query := intercalateS (mkInClause [name ++ sfx 0]) parts,
        counter := 1 }
    ∧ mkBind "string" "" = { type := .STRING, val := .str "" }
    ∧ mkBind "number" "" = { type := .NUMBER, val := .num (.int 0) } := by
  have hsplit : jsSplit value = [value] := jsSplit_no_comma value hv
  have h1 := compile_single_expand sfx (intercalateS (":" ++ name) parts) name value
    datatype
    (by intro j j' hj hj' _
        rw [hsplit] at hj hj'
        simp at hj hj'
        omega)
  rw [hsplit] at h1
  have h2 := jsReplaceAll_intercalateS name
    (mkInClause (syntheticNames sfx name 0 ([value] : List String).length)) parts hne hparts
  refine ⟨?_, by decide, by decide⟩
  rw [h1, h2]
  simp [expandedBinds, syntheticNames, List.range']

/-- Witness for C8 at the empty value with NUMBER type. -/
theorem singleElementExpansion_witness :
    (',' ∉ ("" : String).data
      ∧ (["UPDATE t SET x = 1 WHERE y IN ", ""] : List String) ≠ []
      ∧ (∀ x ∈ (["UPDATE t SET x = 1 WHERE y IN ", ""] : List String), ':' ∉ x.data))
    ∧ (compile (fun _ => "_w") (intercalateS (":" ++ "p")
          ["UPDATE t SET x = 1 WHERE y IN ", ""]) [⟨"p", "", "number", true⟩] =
        { binds := [("p" ++ "_w", mkBind "number" "")],
          query := intercalateS (mkInClause ["p" ++ "_w"])
            ["UPDATE t SET x = 1 WHERE y IN ", ""],
          counter := 1 }
      ∧ mkBind "string" "" = { type := .STRING, val := .str "" }
      ∧ mkBind "number" "" = { type := .NUMBER, val := .num (.int 0) }) :=
  ⟨⟨by decide, by decide, by decide⟩,
    singleElementExpansion (fun _ => "_w") "p" "" "number"
      ["UPDATE t SET x = 1 WHERE y IN ", ""] (by decide) (by decide) (by decide)⟩

/-- C9: compiling the same input twice is deterministic whenever no parameter
expands (the suffix stream is never consulted); on the expanding path, runs
whose drawn suffixes differ produce disjoint synthetic bind names. -/
theorem compileDeterminismAndFreshNames :
    (∀ (sfx1 sfx2 : Nat → String) (sql : String) (params : List Param),
      (∀ p ∈ params, p.parseInStatement = false) →
      compile sfx1 sql params = compile sfx2 sql params)
    ∧ (∀ (sfx1 sfx2 : Nat → String) (sql name value datatype : String),
      (∀ j, j < (jsSplit value).length → ∀ j', j' < (jsSplit value).length →
        name ++ sfx1 j = name ++ sfx1 j' → j = j') →
      (∀ j, j < (jsSplit value).length → ∀ j', j' < (jsSplit value).length →
        name ++ sfx2 j = name ++ sfx2 j' → j = j') →
      (∀ j, j < (jsSplit value).length → ∀ j', j' < (jsSplit value).length →
        sfx1 j ≠ sfx2 j') →
      ∀ key ∈ ((compile sfx1 sql [⟨name, value, datatype, true⟩]).binds.map Prod.fst),
        key ∉ ((compile sfx2 sql [⟨name, value, datatype, true⟩]).binds.map Prod.fst)) := by
  constructor
  · intro sfx1 sfx2 sql params hflag
    exact foldl_sfx_irrelevant sfx1 sfx2 params _ hflag
  · intro sfx1 sfx2 sql name value datatype hp1 hp2 hdiff key hk1 hk2
    have hkeys1 : (compile sfx1 sql [⟨name, value, datatype, true⟩]).binds.map Prod.fst
        = syntheticNames sfx1 name 0 (jsSplit value).length := by
      rw [compile_single_expand sfx1 sql name value datatype
        (fun j j' hj hj' => hp1 j hj j' hj')]
      exact expandedBinds_keys sfx1 name datatype 0 (jsSplit value)
    have hkeys2 : (compile sfx2 sql [⟨name, value, datatype, true⟩]).binds.map Prod.fst
        = syntheticNames sfx2 name 0 (jsSplit value).length := by
      rw [compile_single_expand sfx2 sql name value datatype
        (fun j j' hj hj' => hp2 j hj j' hj')]
      exact expandedBinds_keys sfx2 name datatype 0 (jsSplit value)
    rw [hkeys1] at hk1
    rw [hkeys2] at hk2
    simp only [syntheticNames, List.mem_map] at hk1 hk2
    obtain ⟨j, hjmem, hkey1⟩ := hk1
    obtain ⟨j', hjmem', hkey2⟩ := hk2
    have hj : j < (jsSplit value).length := by
      have := List.mem_range'_1.mp hjmem
      omega
    have hj' : j' < (jsSplit value).length := by
      have := List.mem_range'_1.mp hjmem'
      omega
    have heq : name ++ sfx1 j = name ++ sfx2 j' := by rw [hkey1, hkey2]
    exact hdiff j hj j' hj' (strAppendLeftCancel heq)

/-- Witness for C9: a concrete non-expanding determinism instance and a
concrete disjoint-names instance. -/
theorem compileDeterminismAndFreshNames_witness :
    compile (fun _ => "_x") "SELECT :a" [⟨"a", "1", "number", false⟩] =
      compile (fun _ => "_y") "SELECT :a" [⟨"a", "1", "number", false⟩]
    ∧ (∀ key ∈ ((compile (fun i => "_a" ++ toString i)
          "SELECT * FROM t WHERE x IN (:v)"
          [⟨"v", "1,2", "number", true⟩]).binds.map Prod.fst),
        key ∉ ((compile (fun i => "_b" ++ toString i)
          "SELECT * FROM t WHERE x IN (:v)"
          [⟨"v", "1,2", "number", true⟩]).binds.map Prod.fst)) :=
  ⟨compileDeterminismAndFreshNames.1 (fun _ => "_x") (fun _ => "_y") "SELECT :a"
      [⟨"a", "1", "number", false⟩] (by decide),
    compileDeterminismAndFreshNames.2 (fun i => "_a" ++ toString i)
      (fun i => "_b" ++ toString i) "SELECT * FROM t WHERE x IN (:v)"
      "v" "1,2" "number" (by decide) (by decide) (by decide)⟩


end OracleNode
